import Mathlib

/-!
# Verification of the EcoSort admission-control and scoring engine

Shallow embedding of the core of the repository:
* `src/classification_core.py` — keyword scoring (`classify_text_content`),
  heuristic image scoring (`classify_image_content`);
* `src/security.py` — `RateLimiter.is_allowed`, `require_api_key`,
  `validate_file`, `sanitize_text_input`;
* `src/app_production.py` — the text-validation step of `classify_text_endpoint`.

Python strings are modelled as lists of Unicode code points (`PyStr`),
Python floats (timestamps, scores, confidences) as rationals.
-/

/-- Python strings, modelled as sequences of Unicode code points. -/
abbrev PyStr := List Nat

/-- Code points of a Lean string literal, used to write concrete `PyStr` values. -/
def str (s : String) : PyStr := s.toList.map Char.toNat

/-- `str.lower` on one code point (ASCII range, the only range the
keyword table and the denylist use). -/
def lowerNat (n : Nat) : Nat := if 65 ≤ n ∧ n ≤ 90 then n + 32 else n

/-- `str.upper` on one code point (ASCII range). -/
def upperNat (n : Nat) : Nat := if 97 ≤ n ∧ n ≤ 122 then n - 32 else n

/-- `text.lower()`. -/
def lowerStr (s : PyStr) : PyStr := s.map lowerNat

/-- `text.upper()`. -/
def upperStr (s : PyStr) : PyStr := s.map upperNat

/-- Python substring test `pat in hay`. -/
def containsSub (hay pat : PyStr) : Bool :=
  match hay with
  | [] => pat.isEmpty
  | _ :: rest => pat.isPrefixOf hay || containsSub rest pat

/-- One left-to-right pass of Python `s.replace(pat, '')`: while `skip` is
positive the scanner is inside an already-matched occurrence and emits
nothing; at `skip = 0` it tests for `pat` at the current position. -/
def repGo (pat : PyStr) : PyStr → Nat → PyStr
  | [], _ => []
  | _ :: cs, k + 1 => repGo pat cs k
  | c :: cs, 0 =>
    if pat ≠ [] ∧ pat.isPrefixOf (c :: cs) then repGo pat cs (pat.length - 1)
    else c :: repGo pat cs 0

/-- Python `s.replace(pat, '')`: delete every (non-overlapping, left-to-right)
occurrence of `pat` in `s`. -/
def replaceAll (s pat : PyStr) : PyStr := repGo pat s 0

/-! ## classification_core.py -/

/-- The closed category enumeration (`'recyclable'`, `'biodegradable'`,
`'hazardous'` in the source). -/
inductive Category
  | recyclable
  | biodegradable
  | hazardous
deriving DecidableEq, Repr

/-- `WASTE_KEYWORDS` (classification_core.py lines 11-30), in source order. -/
def WASTE_KEYWORDS : Category → List PyStr
  | Category.recyclable =>
      (["plastic", "bottle", "can", "aluminum", "paper", "cardboard",
        "glass", "newspaper", "magazine", "metal", "tin", "steel",
        "container", "jar", "box", "packaging", "wrapper", "bag",
        "cup", "plate", "tray", "carton", "tube", "foil"]).map str
  | Category.biodegradable =>
      (["banana", "apple", "orange", "fruit", "vegetable", "food",
        "organic", "compost", "leaf", "wood", "branch", "plant",
        "peel", "core", "scrap", "leftover", "garden", "yard",
        "flower", "grass", "tree", "seed", "shell", "bone"]).map str
  | Category.hazardous =>
      (["battery", "electronic", "chemical", "paint", "oil", "toxic",
        "medical", "needle", "syringe", "medicine", "drug", "acid",
        "cleaning", "detergent", "bleach", "pesticide", "solvent",
        "fluorescent", "bulb", "thermometer", "asbestos"]).map str

/-- Keyword weight `len(keyword) / 10 + 1` (line 44). -/
def kwWeight (kw : PyStr) : ℚ := (kw.length : ℚ) / 10 + 1

/-- Accumulated score of one category: for every keyword occurring as a
substring of the lowered text, add its weight (lines 40-45). -/
def categoryScore (textLower : PyStr) (kws : List PyStr) : ℚ :=
  (kws.map fun kw => if containsSub textLower kw then kwWeight kw else 0).sum

/-- `scores['recyclable']` for a given input text. -/
def scoreR (text : PyStr) : ℚ :=
  categoryScore (lowerStr text) (WASTE_KEYWORDS Category.recyclable)

/-- `scores['biodegradable']` for a given input text. -/
def scoreB (text : PyStr) : ℚ :=
  categoryScore (lowerStr text) (WASTE_KEYWORDS Category.biodegradable)

/-- `scores['hazardous']` for a given input text. -/
def scoreH (text : PyStr) : ℚ :=
  categoryScore (lowerStr text) (WASTE_KEYWORDS Category.hazardous)

/-- Python `round(q, 2)` modelled on rationals: round to the nearest
multiple of 1/100 (the float's round-half-to-even at exact midpoints is
not distinguished by any claim). -/
def round2 (q : ℚ) : ℚ := ((round (100 * q) : ℤ) : ℚ) / 100

/-- `max(scores, key=scores.get)` (line 51) for the insertion order
recyclable, biodegradable, hazardous: Python `max` keeps the first seen
element unless a strictly greater one appears. -/
def bestCategory (r b h : ℚ) : Category :=
  if b > r then (if h > b then Category.hazardous else Category.biodegradable)
  else (if h > r then Category.hazardous else Category.recyclable)

/-- `scores[c]` lookup. -/
def scoreAt (r b h : ℚ) : Category → ℚ
  | Category.recyclable => r
  | Category.biodegradable => b
  | Category.hazardous => h

/-- `classify_text_content` (classification_core.py lines 33-58), the
non-exceptional path: fallback `('recyclable', 0.30)` when all scores are
zero, otherwise the first-seen maximal category with confidence
`round(min(0.95, 0.60 + max_score / total_score * 0.35), 2)`. -/
def classify_text_core (text : PyStr) : Category × ℚ :=
  if scoreR text = 0 ∧ scoreB text = 0 ∧ scoreH text = 0 then
    (Category.recyclable, 3 / 10)
  else
    (bestCategory (scoreR text) (scoreB text) (scoreH text),
     round2 (min (19 / 20)
       (3 / 5 +
         scoreAt (scoreR text) (scoreB text) (scoreH text)
             (bestCategory (scoreR text) (scoreB text) (scoreH text)) /
           (scoreR text + scoreB text + scoreH text) * (7 / 20))))

/-- The body of `classify_text_content` inside `try:`: a `None` argument
raises `AttributeError` at `text.lower()`. -/
def classify_text_checked : Option PyStr → Except Unit (Category × ℚ)
  | none => Except.error ()
  | some t => Except.ok (classify_text_core t)

/-- `classify_text_content` with its `try/except` wrapper (lines 35 and
60-61): any internal failure degrades to `('recyclable', 0.30)`. -/
def classify_text (t : Option PyStr) : Category × ℚ :=
  match classify_text_checked t with
  | Except.ok r => r
  | Except.error _ => (Category.recyclable, 3 / 10)

/-- A decoded image: `img.size = (width, height)`. -/
structure PyImage where
  width : Nat
  height : Nat
deriving DecidableEq, Repr

/-- Body of `classify_image_content` (classification_core.py lines 64-92)
inside `try:`. The two process-wide random draws are passed explicitly:
`uCat` is `random()` scaled to the total weight (which is 1 for all three
weight triples), selecting the category by cumulative weight exactly as
`random.choices` does; `uConf` is the `random.uniform(0.75, 0.95)` draw.
A `None` image raises at `img.size`. -/
def classify_image_checked (img : Option PyImage) (uCat uConf : ℚ) :
    Except Unit (Category × ℚ) :=
  match img with
  | none => Except.error ()
  | some im =>
    let total_pixels := im.width * im.height
    let aspect_ratio : ℚ :=
      if im.height > 0 then (im.width : ℚ) / (im.height : ℚ) else 1
    let w : ℚ × ℚ × ℚ :=
      if total_pixels > 1000000 then (7 / 10, 2 / 10, 1 / 10)
      else if aspect_ratio > 2 then (8 / 10, 3 / 20, 1 / 20)
      else (3 / 5, 3 / 10, 1 / 10)
    let category :=
      if uCat < w.1 then Category.recyclable
      else if uCat < w.1 + w.2.1 then Category.biodegradable
      else Category.hazardous
    Except.ok (category, round2 uConf)

/-- `classify_image_content` with its `try/except` wrapper (lines 66 and
94-95). -/
def classify_image (img : Option PyImage) (uCat uConf : ℚ) : Category × ℚ :=
  match classify_image_checked img uCat uConf with
  | Except.ok r => r
  | Except.error _ => (Category.recyclable, 3 / 10)

/-! ## Helper lemmas about the scoring arithmetic -/

/-- Ten times the accumulated category score, as a natural number
(`len(keyword)/10 + 1 = (len(keyword) + 10)/10`). -/
def categoryScoreNum (textLower : PyStr) (kws : List PyStr) : Nat :=
  (kws.map fun kw => if containsSub textLower kw then kw.length + 10 else 0).sum

theorem categoryScore_eq_num (tl : PyStr) (kws : List PyStr) :
    categoryScore tl kws = (categoryScoreNum tl kws : ℚ) / 10 := by
  induction kws with
  | nil => simp [categoryScore, categoryScoreNum]
  | cons kw rest ih =>
    unfold categoryScore categoryScoreNum at *
    simp only [List.map_cons, List.sum_cons]
    split_ifs with hc
    · rw [ih]
      unfold kwWeight
      push_cast
      ring
    · rw [ih]
      push_cast
      ring

theorem categoryScore_nonneg (tl : PyStr) (kws : List PyStr) :
    0 ≤ categoryScore tl kws := by
  rw [categoryScore_eq_num]; positivity

theorem categoryScore_eq_zero (tl : PyStr) (kws : List PyStr)
    (h : ∀ kw ∈ kws, containsSub tl kw = false) : categoryScore tl kws = 0 := by
  induction kws with
  | nil => simp [categoryScore]
  | cons kw rest ih =>
    unfold categoryScore at *
    simp only [List.map_cons, List.sum_cons]
    rw [h kw (List.mem_cons_self kw rest),
      ih fun k hk => h k (List.mem_cons_of_mem kw hk)]
    simp

theorem round2_mono {x y : ℚ} (h : x ≤ y) : round2 x ≤ round2 y := by
  unfold round2
  have h1 : round (100 * x) ≤ round (100 * y) := by
    rw [round_eq, round_eq]
    exact Int.floor_le_floor (by linarith)
  have h2 : ((round (100 * x) : ℤ) : ℚ) ≤ ((round (100 * y) : ℤ) : ℚ) := by
    exact_mod_cast h1
  linarith

theorem round2_intCast_div (k : ℤ) : round2 ((k : ℚ) / 100) = (k : ℚ) / 100 := by
  unfold round2
  rw [show (100 : ℚ) * ((k : ℚ) / 100) = (k : ℚ) by ring, round_intCast]

theorem round2_three_fifths : round2 ((3 : ℚ) / 5) = 3 / 5 := by
  have h := round2_intCast_div 60
  norm_num at h
  exact h

theorem round2_nineteen_twentieths : round2 ((19 : ℚ) / 20) = 19 / 20 := by
  have h := round2_intCast_div 95
  norm_num at h
  exact h

theorem round2_three_quarters : round2 ((3 : ℚ) / 4) = 3 / 4 := by
  have h := round2_intCast_div 75
  norm_num at h
  exact h

theorem scoreAt_best_ge (r b h : ℚ) :
    r ≤ scoreAt r b h (bestCategory r b h) ∧
    b ≤ scoreAt r b h (bestCategory r b h) ∧
    h ≤ scoreAt r b h (bestCategory r b h) := by
  unfold bestCategory
  split_ifs with h1 h2 h3 <;> simp only [scoreAt] <;>
    exact ⟨by linarith, by linarith, by linarith⟩

theorem scoreAt_best_mem (r b h : ℚ) :
    scoreAt r b h (bestCategory r b h) = r ∨
    scoreAt r b h (bestCategory r b h) = b ∨
    scoreAt r b h (bestCategory r b h) = h := by
  cases hB : bestCategory r b h <;> simp [scoreAt]

/-- Confidence bounds of the non-exceptional text path. -/
theorem conf_bounds (text : PyStr) :
    3 / 10 ≤ (classify_text_core text).2 ∧ (classify_text_core text).2 ≤ 19 / 20 := by
  unfold classify_text_core
  split_ifs with hz
  · norm_num
  · set r := scoreR text with hrdef
    set b := scoreB text with hbdef
    set hh := scoreH text with hhdef
    have hr0 : 0 ≤ r := categoryScore_nonneg _ _
    have hb0 : 0 ≤ b := categoryScore_nonneg _ _
    have hh0 : 0 ≤ hh := categoryScore_nonneg _ _
    set M := scoreAt r b hh (bestCategory r b hh) with hMdef
    obtain ⟨hMr, hMb, hMh⟩ := scoreAt_best_ge r b hh
    have hMpos : 0 < M := by
      rcases lt_or_eq_of_le (le_trans hr0 hMr) with h | h
      · exact h
      · exact absurd ⟨le_antisymm (h ▸ hMr) hr0, le_antisymm (h ▸ hMb) hb0,
          le_antisymm (h ▸ hMh) hh0⟩ hz
    have hMtot : M ≤ r + b + hh := by
      rcases scoreAt_best_mem r b hh with h | h | h <;> rw [← hMdef] at h <;> rw [h] <;> linarith
    have htot : 0 < r + b + hh := lt_of_lt_of_le hMpos hMtot
    have hratio1 : M / (r + b + hh) ≤ 1 := (div_le_one htot).mpr hMtot
    have hratio0 : 0 < M / (r + b + hh) := div_pos hMpos htot
    have hc1 : 3 / 5 + M / (r + b + hh) * (7 / 20) ≤ 19 / 20 := by nlinarith
    have hc0 : 3 / 5 ≤ 3 / 5 + M / (r + b + hh) * (7 / 20) := by nlinarith
    rw [min_eq_right hc1]
    constructor
    · calc (3 : ℚ) / 10 ≤ 3 / 5 := by norm_num
        _ = round2 (3 / 5) := round2_three_fifths.symm
        _ ≤ _ := round2_mono hc0
    · calc round2 (3 / 5 + M / (r + b + hh) * (7 / 20)) ≤ round2 (19 / 20) := round2_mono hc1
        _ = 19 / 20 := round2_nineteen_twentieths

theorem bestCategory_score_eq_max (r b h : ℚ) :
    scoreAt r b h (bestCategory r b h) = max r (max b h) := by
  obtain ⟨h1, h2, h3⟩ := scoreAt_best_ge r b h
  apply le_antisymm
  · rcases scoreAt_best_mem r b h with h' | h' | h' <;> rw [h']
    · exact le_max_left _ _
    · exact le_trans (le_max_left _ _) (le_max_right _ _)
    · exact le_trans (le_max_right _ _) (le_max_right _ _)
  · exact max_le h1 (max_le h2 h3)

theorem bestCategory_eq_recyclable (r b h : ℚ) (hb : b ≤ r) (hh : h ≤ r) :
    bestCategory r b h = Category.recyclable := by
  unfold bestCategory
  rw [if_neg (not_lt.mpr hb), if_neg (not_lt.mpr hh)]

theorem bestCategory_eq_biodegradable (r b h : ℚ) (hr : r < b) (hh : h ≤ b) :
    bestCategory r b h = Category.biodegradable := by
  unfold bestCategory
  rw [if_pos hr, if_neg (not_lt.mpr hh)]

theorem bestCategory_eq_hazardous (r b h : ℚ) (hr : r < h) (hb : b < h) :
    bestCategory r b h = Category.hazardous := by
  unfold bestCategory
  rcases lt_or_le r b with h1 | h1
  · rw [if_pos h1, if_pos hb]
  · rw [if_neg (not_lt.mpr h1), if_pos hr]

theorem classify_core_fst (text : PyStr)
    (hz : ¬(scoreR text = 0 ∧ scoreB text = 0 ∧ scoreH text = 0)) :
    (classify_text_core text).1 =
      bestCategory (scoreR text) (scoreB text) (scoreH text) := by
  unfold classify_text_core
  rw [if_neg hz]

/-- C4: whenever at least one category total is nonzero, `classify_text`
returns the category with the strictly greatest accumulated total, and when
two or more categories share the maximal total the winner is determined by
the fixed priority order recyclable, then biodegradable, then hazardous
(the first-seen maximum in enumeration order). -/
theorem classify_text_tie_break (text : PyStr)
    (hz : ¬(scoreR text = 0 ∧ scoreB text = 0 ∧ scoreH text = 0)) :
    scoreAt (scoreR text) (scoreB text) (scoreH text) ((classify_text_core text).1) =
      max (scoreR text) (max (scoreB text) (scoreH text)) ∧
    (∀ c : Category, (∀ c', c' ≠ c →
        scoreAt (scoreR text) (scoreB text) (scoreH text) c' <
          scoreAt (scoreR text) (scoreB text) (scoreH text) c) →
      (classify_text_core text).1 = c) ∧
    (scoreR text = max (scoreR text) (max (scoreB text) (scoreH text)) →
      (classify_text_core text).1 = Category.recyclable) ∧
    (scoreR text < max (scoreR text) (max (scoreB text) (scoreH text)) →
      scoreB text = max (scoreR text) (max (scoreB text) (scoreH text)) →
      (classify_text_core text).1 = Category.biodegradable) ∧
    (scoreR text < max (scoreR text) (max (scoreB text) (scoreH text)) →
      scoreB text < max (scoreR text) (max (scoreB text) (scoreH text)) →
      (classify_text_core text).1 = Category.hazardous) := by
  set r := scoreR text with hrdef
  set b := scoreB text with hbdef
  set hh := scoreH text with hhdef
  rw [classify_core_fst text hz]
  refine ⟨bestCategory_score_eq_max r b hh, ?_, ?_, ?_, ?_⟩
  · intro c hc
    cases c with
    | recyclable =>
      have h1 := hc Category.biodegradable (by decide)
      have h2 := hc Category.hazardous (by decide)
      simp only [scoreAt] at h1 h2
      exact bestCategory_eq_recyclable r b hh (le_of_lt h1) (le_of_lt h2)
    | biodegradable =>
      have h1 := hc Category.recyclable (by decide)
      have h2 := hc Category.hazardous (by decide)
      simp only [scoreAt] at h1 h2
      exact bestCategory_eq_biodegradable r b hh h1 (le_of_lt h2)
    | hazardous =>
      have h1 := hc Category.recyclable (by decide)
      have h2 := hc Category.biodegradable (by decide)
      simp only [scoreAt] at h1 h2
      exact bestCategory_eq_hazardous r b hh h1 h2
  · intro hr
    have hb : b ≤ r := le_trans (le_trans (le_max_left _ _) (le_max_right r _)) hr.symm.le
    have hhr : hh ≤ r := le_trans (le_trans (le_max_right _ _) (le_max_right r _)) hr.symm.le
    exact bestCategory_eq_recyclable r b hh hb hhr
  · intro hrlt hbmax
    have hrb : r < b := lt_of_lt_of_le hrlt hbmax.symm.le
    have hhb : hh ≤ b := le_trans (le_trans (le_max_right b _) (le_max_right r _)) hbmax.symm.le
    exact bestCategory_eq_biodegradable r b hh hrb hhb
  · intro hrlt hblt
    have hmax : max r (max b hh) = hh := by
      rcases max_cases r (max b hh) with ⟨h3, h4⟩ | ⟨h3, h4⟩
      · exfalso; rw [h3] at hrlt; exact lt_irrefl _ hrlt
      · rcases max_cases b hh with ⟨h1, h2⟩ | ⟨h1, h2⟩
        · exfalso; rw [h3, h1] at hblt; exact lt_irrefl _ hblt
        · rw [h3, h1]
    rw [hmax] at hrlt hblt
    exact bestCategory_eq_hazardous r b hh hrlt hblt

theorem scoreR_plastic : scoreR (str ("plastic")) = 17 / 10 := by
  rw [scoreR, categoryScore_eq_num,
    show categoryScoreNum (lowerStr (str ("plastic"))) (WASTE_KEYWORDS Category.recyclable) = 17
      from by decide]
  norm_num

theorem scoreB_plastic : scoreB (str ("plastic")) = 0 := by
  rw [scoreB, categoryScore_eq_num,
    show categoryScoreNum (lowerStr (str ("plastic"))) (WASTE_KEYWORDS Category.biodegradable) = 0
      from by decide]
  norm_num

theorem scoreH_plastic : scoreH (str ("plastic")) = 0 := by
  rw [scoreH, categoryScore_eq_num,
    show categoryScoreNum (lowerStr (str ("plastic"))) (WASTE_KEYWORDS Category.hazardous) = 0
      from by decide]
  norm_num

/-- Witness for C4 at the input `"plastic"`: its recyclable score 1.7 is the
unique (hence first-seen) maximum, so the classifier returns recyclable. -/
theorem classify_text_tie_break_witness :
    ¬(scoreR (str ("plastic")) = 0 ∧ scoreB (str ("plastic")) = 0 ∧
        scoreH (str ("plastic")) = 0) ∧
    (classify_text_core (str ("plastic"))).1 = Category.recyclable := by
  have hz : ¬(scoreR (str ("plastic")) = 0 ∧ scoreB (str ("plastic")) = 0 ∧
      scoreH (str ("plastic")) = 0) := by
    intro hc
    rw [scoreR_plastic] at hc
    norm_num at hc
  refine ⟨hz, (classify_text_tie_break (str ("plastic")) hz).2.2.1 ?_⟩
  rw [scoreR_plastic, scoreB_plastic, scoreH_plastic, max_self,
    max_eq_left (by norm_num : (0 : ℚ) ≤ 17 / 10)]

/-- All keywords of all three categories, in the table's order. -/
def all_keywords : List PyStr :=
  WASTE_KEYWORDS Category.recyclable ++ WASTE_KEYWORDS Category.biodegradable ++
    WASTE_KEYWORDS Category.hazardous

/-- C5: for every input text in which no keyword of any category occurs as a
substring of the lower-cased text, `classify_text` returns exactly
`(recyclable, 0.30)`; and for every input text the returned confidence lies
in `[0.30, 0.95]` (at least 0.60 whenever a keyword matches, by
`conf_bounds`' proof via the `min(0.95, 0.60 + ratio * 0.35)` formula). -/
theorem classify_text_fallback_and_conf_bounds :
    (∀ text : PyStr, (∀ kw ∈ all_keywords, containsSub (lowerStr text) kw = false) →
      classify_text_core text = (Category.recyclable, 3 / 10)) ∧
    (∀ text : PyStr,
      3 / 10 ≤ (classify_text_core text).2 ∧ (classify_text_core text).2 ≤ 19 / 20) := by
  constructor
  · intro text h
    have hr : scoreR text = 0 := categoryScore_eq_zero _ _ fun kw hk =>
      h kw (List.mem_append_left _ (List.mem_append_left _ hk))
    have hb : scoreB text = 0 := categoryScore_eq_zero _ _ fun kw hk =>
      h kw (List.mem_append_left _ (List.mem_append_right _ hk))
    have hhh : scoreH text = 0 := categoryScore_eq_zero _ _ fun kw hk =>
      h kw (List.mem_append_right _ hk)
    unfold classify_text_core
    rw [if_pos ⟨hr, hb, hhh⟩]
  · exact conf_bounds

/-- Witness for C5 at the input `"xyz"`: no keyword occurs, so the result is
exactly the fallback `(recyclable, 0.30)`, whose confidence is in bounds. -/
theorem classify_text_fallback_witness :
    (∀ kw ∈ all_keywords, containsSub (lowerStr (str ("xyz"))) kw = false) ∧
    classify_text_core (str ("xyz")) = (Category.recyclable, 3 / 10) ∧
    3 / 10 ≤ (classify_text_core (str ("xyz"))).2 ∧
    (classify_text_core (str ("xyz"))).2 ≤ 19 / 20 :=
  ⟨by decide, classify_text_fallback_and_conf_bounds.1 _ (by decide),
   (classify_text_fallback_and_conf_bounds.2 (str ("xyz"))).1,
   (classify_text_fallback_and_conf_bounds.2 (str ("xyz"))).2⟩

theorem lowerNat_idem (n : Nat) : lowerNat (lowerNat n) = lowerNat n := by
  unfold lowerNat
  split_ifs <;> omega

theorem lowerStr_idem (s : PyStr) : lowerStr (lowerStr s) = lowerStr s := by
  induction s with
  | nil => rfl
  | cons a t ih =>
    simp only [lowerStr, List.map_cons] at *
    rw [lowerNat_idem]
    exact congrArg _ (by simpa [lowerStr] using ih)

/-- C10: text classification is case-insensitive — the classifier's output
depends only on the lower-cased input, so any two letter-case variants of a
string (in particular `s` and `lower(s)`) classify identically. -/
theorem classify_text_case_insensitive :
    (∀ s : PyStr, classify_text_core (lowerStr s) = classify_text_core s) ∧
    (∀ s t : PyStr, lowerStr s = lowerStr t →
      classify_text_core s = classify_text_core t) := by
  have key : ∀ s t : PyStr, lowerStr s = lowerStr t →
      classify_text_core s = classify_text_core t := by
    intro s t h
    have hr : scoreR s = scoreR t := by unfold scoreR; rw [h]
    have hb : scoreB s = scoreB t := by unfold scoreB; rw [h]
    have hhh : scoreH s = scoreH t := by unfold scoreH; rw [h]
    unfold classify_text_core
    rw [hr, hb, hhh]
  exact ⟨fun s => key _ _ (lowerStr_idem s), key⟩

/-- Witness for C10 at `"PLASTIC"` vs `"plastic"`. -/
theorem classify_text_case_insensitive_witness :
    lowerStr (str ("PLASTIC")) = lowerStr (str ("plastic")) ∧
    classify_text_core (str ("PLASTIC")) = classify_text_core (str ("plastic")) ∧
    classify_text_core (lowerStr (str ("PLASTIC"))) = classify_text_core (str ("PLASTIC")) :=
  ⟨by decide, classify_text_case_insensitive.2 _ _ (by decide),
   classify_text_case_insensitive.1 (str ("PLASTIC"))⟩

/-- C8: classification never fails — for every input (including the
malformed `None`, modelled as `none`) both classifiers return a
`(category, confidence)` pair instead of propagating the internal
exception, the confidence is always within `[0.30, 0.95]` (for the image
path: provided the `random.uniform(0.75, 0.95)` draw is in its range), and
any internal failure yields exactly the fallback `(recyclable, 0.30)`. -/
theorem classify_never_raises :
    (∀ t, classify_text_checked t = Except.error () →
      classify_text t = (Category.recyclable, 3 / 10)) ∧
    (∀ t, 3 / 10 ≤ (classify_text t).2 ∧ (classify_text t).2 ≤ 19 / 20) ∧
    (∀ img uCat uConf, classify_image_checked img uCat uConf = Except.error () →
      classify_image img uCat uConf = (Category.recyclable, 3 / 10)) ∧
    (∀ img uCat uConf, 3 / 4 ≤ uConf → uConf ≤ 19 / 20 →
      3 / 10 ≤ (classify_image img uCat uConf).2 ∧
        (classify_image img uCat uConf).2 ≤ 19 / 20) := by
  refine ⟨?_, ?_, ?_, ?_⟩
  · intro t h
    unfold classify_text
    rw [h]
  · intro t
    cases t with
    | none => norm_num [classify_text, classify_text_checked]
    | some s =>
      simpa only [classify_text, classify_text_checked] using conf_bounds s
  · intro img uCat uConf h
    unfold classify_image
    rw [h]
  · intro img uCat uConf h1 h2
    cases img with
    | none => norm_num [classify_image, classify_image_checked]
    | some im =>
      have hsnd : (classify_image (some im) uCat uConf).2 = round2 uConf := by
        simp only [classify_image, classify_image_checked]
      rw [hsnd]
      constructor
      · calc (3 : ℚ) / 10 ≤ 3 / 4 := by norm_num
          _ = round2 (3 / 4) := round2_three_quarters.symm
          _ ≤ round2 uConf := round2_mono h1
      · calc round2 uConf ≤ round2 (19 / 20) := round2_mono h2
          _ = 19 / 20 := round2_nineteen_twentieths

/-- Witness for C8: `None` inputs raise internally and degrade to the
fallback; a concrete image draw stays within the confidence bounds. -/
theorem classify_never_raises_witness :
    classify_text_checked none = Except.error () ∧
    classify_text none = (Category.recyclable, 3 / 10) ∧
    classify_image_checked none 0 (4 / 5) = Except.error () ∧
    classify_image none 0 (4 / 5) = (Category.recyclable, 3 / 10) ∧
    ((3 : ℚ) / 4 ≤ 4 / 5 ∧ (4 : ℚ) / 5 ≤ 19 / 20) ∧
    (3 / 10 ≤ (classify_image (some ⟨100, 100⟩) 0 (4 / 5)).2 ∧
      (classify_image (some ⟨100, 100⟩) 0 (4 / 5)).2 ≤ 19 / 20) :=
  ⟨rfl, classify_never_raises.1 none rfl, rfl,
   classify_never_raises.2.2.1 none 0 (4 / 5) rfl,
   ⟨by norm_num, by norm_num⟩,
   classify_never_raises.2.2.2 (some ⟨100, 100⟩) 0 (4 / 5) (by norm_num) (by norm_num)⟩

/-! ## security.py — API key gate -/

/-- The pattern `'Bearer '` of `provided_key.replace('Bearer ', '')`. -/
def bearerPat : PyStr := str ("Bearer ")

/-- `require_api_key` (security.py lines 80-106), as the pure access
decision: `api_key = current_app.config.get('API_KEY')` is the configured
key (`none` = unset; the empty string is falsy in Python, so it also
disables authentication); `provided` is
`request.headers.get('X-API-Key') or request.headers.get('Authorization')`
(`none` = no header; an empty header is falsy and rejected). The request
passes iff `provided_key and provided_key.replace('Bearer ', '') == api_key`. -/
def require_api_key (provided : Option PyStr) (api_key : Option PyStr) : Bool :=
  match api_key with
  | none => true
  | some k =>
    if k = [] then true
    else
      match provided with
      | none => false
      | some p => decide (p ≠ []) && decide (replaceAll p bearerPat = k)

/-- The claim's rule, verbatim: strip one leading `"Bearer "` prefix from
the provided credential and compare for string equality. -/
def authorizeSpec (provided : Option PyStr) (configured : Option PyStr) : Bool :=
  match configured with
  | none => true
  | some k =>
    match provided with
    | none => false
    | some p =>
      decide ((if bearerPat.isPrefixOf p then p.drop bearerPat.length else p) = k)

/-- Counterexample to C3: the code deletes *every* occurrence of
`'Bearer '` (Python `str.replace`), not just a leading prefix, so the
credential `"Bearer Bearer k1"` is accepted for the configured key `"k1"`
although stripping a single leading prefix leaves `"Bearer k1" ≠ "k1"`. -/
theorem require_api_key_not_prefix_strip :
    require_api_key (some (str ("Bearer Bearer k1"))) (some (str ("k1"))) = true ∧
    authorizeSpec (some (str ("Bearer Bearer k1"))) (some (str ("k1"))) = false := by
  decide

/-- C3 (amended): the gate accepts every request when no key is configured
(or the configured key is empty); with a non-empty configured key it
rejects a missing credential, and accepts a provided credential exactly
when it is non-empty and, after deleting every occurrence of `"Bearer "`,
is string-equal to the configured key. The claim's four concrete vectors
hold as stated. -/
theorem require_api_key_replace_all_semantics :
    (∀ p, require_api_key p none = true) ∧
    (∀ p, require_api_key p (some []) = true) ∧
    (∀ k, k ≠ [] → require_api_key none (some k) = false) ∧
    (∀ p k, k ≠ [] →
      (require_api_key (some p) (some k) = true ↔
        p ≠ [] ∧ replaceAll p bearerPat = k)) ∧
    require_api_key none (some (str ("k1"))) = false ∧
    require_api_key (some (str ("Bearer k1"))) (some (str ("k1"))) = true ∧
    require_api_key (some (str ("k1"))) (some (str ("k1"))) = true ∧
    require_api_key (some (str ("k2"))) (some (str ("k1"))) = false := by
  refine ⟨fun p => rfl, fun p => rfl, ?_, ?_, by decide, by decide, by decide, by decide⟩
  · intro k hk
    simp [require_api_key, hk]
  · intro p k hk
    simp [require_api_key, hk]

/-- Witness for the amended C3 at concrete credentials. -/
theorem require_api_key_replace_all_semantics_witness :
    str ("k1") ≠ [] ∧
    require_api_key none (some (str ("k1"))) = false ∧
    (require_api_key (some (str ("Bearer Bearer k1"))) (some (str ("k1"))) = true ↔
      str ("Bearer Bearer k1") ≠ [] ∧
        replaceAll (str ("Bearer Bearer k1")) bearerPat = str ("k1")) :=
  ⟨by decide, require_api_key_replace_all_semantics.2.2.1 _ (by decide),
   require_api_key_replace_all_semantics.2.2.2.1 _ _ (by decide)⟩

/-! ## security.py — text sanitization and the endpoint's text validation -/

/-- Python `str.strip()` whitespace test, on the ASCII whitespace code
points (space, tab, newline, carriage return, vertical tab, form feed). -/
def pyIsSpaceN (n : Nat) : Bool :=
  n = 32 || n = 9 || n = 10 || n = 13 || n = 11 || n = 12

/-- Python `text.strip()`: drop whitespace from both ends. -/
def pyStrip (s : PyStr) : PyStr :=
  ((s.dropWhile pyIsSpaceN).reverse.dropWhile pyIsSpaceN).reverse

/-- `dangerous_patterns` (security.py line 167). -/
def dangerous_patterns : List PyStr :=
  (["<script", "</script", "javascript:", "onload=", "onerror="]).map str

/-- `sanitize_text_input` (security.py lines 158-172): falsy input maps to
`""`; otherwise trim, truncate to 1000 characters, then for each pattern
delete `pattern.lower()` and `pattern.upper()` in turn. -/
def sanitize_text_input (text : PyStr) : PyStr :=
  if text = [] then []
  else
    dangerous_patterns.foldl
      (fun acc p => replaceAll (replaceAll acc (lowerStr p)) (upperStr p))
      ((pyStrip text).take 1000)

/-- `ValidationVerdict` of the text path. -/
inductive Verdict
  | accept (sanitized : PyStr)
  | reject (reason : PyStr)
deriving DecidableEq, Repr

/-- The text-validation step of `classify_text_endpoint`
(app_production.py lines 198-201): sanitize, then reject iff the result is
falsy (empty). -/
def validate_text (raw : PyStr) : Verdict :=
  if sanitize_text_input raw = [] then
    Verdict.reject (str ("Empty or invalid text provided"))
  else Verdict.accept (sanitize_text_input raw)

theorem repGo_length_le (pat : PyStr) (s : PyStr) : ∀ k, (repGo pat s k).length ≤ s.length := by
  induction s with
  | nil => intro k; cases k <;> simp [repGo]
  | cons c cs ih =>
    intro k
    cases k with
    | succ k => simpa [repGo] using Nat.le_succ_of_le (ih k)
    | zero =>
      simp only [repGo]
      split_ifs
      · exact Nat.le_succ_of_le (ih _)
      · simpa using ih 0

theorem replaceAll_length_le (s pat : PyStr) : (replaceAll s pat).length ≤ s.length :=
  repGo_length_le pat s 0

theorem replaceAll_nil (pat : PyStr) : replaceAll [] pat = [] := rfl

theorem sanitize_foldl_nil :
    dangerous_patterns.foldl
      (fun acc p => replaceAll (replaceAll acc (lowerStr p)) (upperStr p)) [] = [] := by
  decide

theorem sanitize_foldl_length_le (ps : List PyStr) :
    ∀ acc : PyStr,
      (ps.foldl (fun acc p => replaceAll (replaceAll acc (lowerStr p)) (upperStr p)) acc).length ≤
        acc.length := by
  induction ps with
  | nil => intro acc; simp
  | cons p rest ih =>
    intro acc
    simp only [List.foldl_cons]
    exact le_trans (ih _) (le_trans (replaceAll_length_le _ _) (replaceAll_length_le _ _))

/-- C6: `validate_text` rejects input that is empty after trimming (or that
becomes empty after sanitization); otherwise it accepts and returns the
sanitized value — the trimmed input truncated to at most 1000 characters
with the denylist substrings deleted in lower- and upper-case forms — and
both concrete examples of the claim behave as stated. -/
theorem validate_text_sanitization :
    (∀ t : PyStr, pyStrip t = [] →
      validate_text t = Verdict.reject (str ("Empty or invalid text provided"))) ∧
    (∀ t : PyStr, sanitize_text_input t = [] →
      validate_text t = Verdict.reject (str ("Empty or invalid text provided"))) ∧
    (∀ t s : PyStr, validate_text t = Verdict.accept s →
      s = dangerous_patterns.foldl
            (fun acc p => replaceAll (replaceAll acc (lowerStr p)) (upperStr p))
            ((pyStrip t).take 1000) ∧
        s.length ≤ 1000) ∧
    validate_text (str ("<script>alert(1)</script>plastic bottle")) =
      Verdict.accept (str (">alert(1)>plastic bottle")) ∧
    containsSub (str (">alert(1)>plastic bottle")) (str ("<script")) = false ∧
    containsSub (str (">alert(1)>plastic bottle")) (str ("</script")) = false ∧
    validate_text (str ("  plastic bottle  ")) = Verdict.accept (str ("plastic bottle")) := by
  have hsan_empty : ∀ t : PyStr, pyStrip t = [] → sanitize_text_input t = [] := by
    intro t ht
    unfold sanitize_text_input
    split_ifs
    · rfl
    · rw [ht]
      simpa using sanitize_foldl_nil
  refine ⟨?_, ?_, ?_, by decide, by decide, by decide, by decide⟩
  · intro t ht
    unfold validate_text
    rw [if_pos (hsan_empty t ht)]
  · intro t ht
    unfold validate_text
    rw [if_pos ht]
  · intro t s hacc
    unfold validate_text at hacc
    split_ifs at hacc with hemp
    have hs : s = sanitize_text_input t := by
      injection hacc with h
      exact h.symm
    subst hs
    constructor
    · unfold sanitize_text_input
      split_ifs with h0
      · rw [h0]
        simp only [pyStrip, List.dropWhile_nil, List.reverse_nil, List.take_nil]
        exact sanitize_foldl_nil.symm
      · rfl
    · have h1 : (sanitize_text_input t).length ≤ ((pyStrip t).take 1000).length := by
        unfold sanitize_text_input
        split_ifs with h0
        · simp
        · exact sanitize_foldl_length_le _ _
      have h2 : ((pyStrip t).take 1000).length ≤ 1000 := by
        rw [List.length_take]
        exact min_le_left _ _
      exact le_trans h1 h2

/-- Witness for C6: an all-whitespace input is rejected; the script-tag
example is accepted with the delisted substrings removed. -/
theorem validate_text_sanitization_witness :
    pyStrip (str ("   ")) = [] ∧
    validate_text (str ("   ")) = Verdict.reject (str ("Empty or invalid text provided")) ∧
    (validate_text (str ("  plastic bottle  ")) = Verdict.accept (str ("plastic bottle")) →
      str ("plastic bottle") = dangerous_patterns.foldl
          (fun acc p => replaceAll (replaceAll acc (lowerStr p)) (upperStr p))
          ((pyStrip (str ("  plastic bottle  "))).take 1000) ∧
        (str ("plastic bottle")).length ≤ 1000) :=
  ⟨by decide, validate_text_sanitization.1 _ (by decide),
   validate_text_sanitization.2.2.1 _ _⟩

/-! ## security.py — file validation -/

/-- Default `allowed_extensions` (security.py line 118). -/
def allowed_extensions_default : List PyStr :=
  (["png", "jpg", "jpeg", "gif", "bmp", "webp"]).map str

/-- Default `max_size` `16 * 1024 * 1024` (security.py line 128). -/
def MAX_FILE_SIZE_DEFAULT : Nat := 16 * 1024 * 1024

/-- An uploaded file as `validate_file` observes it: its `filename`
attribute, its byte length (`seek(0, 2); tell()`), and — when PIL can
decode the byte stream — the decoded image (`none` models a stream that
fails `Image.open`/`verify`). -/
structure UploadedFile where
  filename : PyStr
  size : Nat
  image : Option PyImage
deriving DecidableEq, Repr

/-- `filename.rsplit('.', 1)[1].lower()`: the code points after the last
`'.'` (46), lower-cased. -/
def extOf (fn : PyStr) : PyStr :=
  lowerStr (fn.reverse.takeWhile (fun c => decide (c ≠ 46))).reverse

/-- `validate_file` (security.py lines 109-155) with the configured
allow-set and byte ceiling as parameters (`current_app.config` values, with
the defaults above). Returns `some reason` on rejection, `none` on success,
exactly like the Python `Optional[str]`. The reason strings keep the static
part of the source's messages (the f-string interpolations are elided). -/
def validate_file (allowed : List PyStr) (max_size : Nat)
    (file : Option UploadedFile) : Option PyStr :=
  match file with
  | none => some (str ("No file provided"))
  | some f =>
    if f.filename = [] then some (str ("No file selected"))
    else if ¬(46 ∈ f.filename ∧ extOf f.filename ∈ allowed) then
      some (str ("File type not allowed"))
    else if f.size > max_size then some (str ("File too large"))
    else
      match f.image with
      | none => some (str ("Invalid image file"))
      | some im =>
        if im.width * im.height > 100000000 then
          some (str ("Image dimensions too large"))
        else none

/-- C7: `validate_file` rejects every file whose filename has no `'.'` or
whose extension (after the last `'.'`, lower-cased) is outside the
configured allow-set; every file whose byte length exceeds the configured
maximum; and every decodable image whose pixel area exceeds 100,000,000. -/
theorem validate_file_rejections :
    (∀ (allowed : List PyStr) (max_size : Nat) (f : UploadedFile),
      (¬46 ∈ f.filename ∨ extOf f.filename ∉ allowed) →
      validate_file allowed max_size (some f) ≠ none) ∧
    (∀ (allowed : List PyStr) (max_size : Nat) (f : UploadedFile),
      f.size > max_size → validate_file allowed max_size (some f) ≠ none) ∧
    (∀ (allowed : List PyStr) (max_size : Nat) (f : UploadedFile) (im : PyImage),
      f.image = some im → im.width * im.height > 100000000 →
      validate_file allowed max_size (some f) ≠ none) := by
  refine ⟨?_, ?_, ?_⟩
  · intro allowed max_size f hext
    have hA : ¬(46 ∈ f.filename ∧ extOf f.filename ∈ allowed) := by tauto
    simp only [validate_file]
    by_cases h1 : f.filename = []
    · rw [if_pos h1]; simp
    · rw [if_neg h1, if_pos hA]; simp
  · intro allowed max_size f hsize
    simp only [validate_file]
    by_cases h1 : f.filename = []
    · rw [if_pos h1]; simp
    · rw [if_neg h1]
      by_cases h2 : ¬(46 ∈ f.filename ∧ extOf f.filename ∈ allowed)
      · rw [if_pos h2]; simp
      · rw [if_neg h2, if_pos hsize]; simp
  · intro allowed max_size f im him harea
    simp only [validate_file]
    by_cases h1 : f.filename = []
    · rw [if_pos h1]; simp
    · rw [if_neg h1]
      by_cases h2 : ¬(46 ∈ f.filename ∧ extOf f.filename ∈ allowed)
      · rw [if_pos h2]; simp
      · rw [if_neg h2]
        by_cases h3 : f.size > max_size
        · rw [if_pos h3]; simp
        · rw [if_neg h3, him]
          simp [harea]

/-- Witness for C7: under the default configuration, a `.txt` file of tiny
size with a small decodable image is rejected (extension not allowed); an
oversized `.png` is rejected; a decodable 20000×20000 `.png` is rejected. -/
theorem validate_file_rejections_witness :
    (extOf (str ("notes.txt")) ∉ allowed_extensions_default ∧
      validate_file allowed_extensions_default MAX_FILE_SIZE_DEFAULT
        (some ⟨str ("notes.txt"), 4, some ⟨8, 8⟩⟩) ≠ none) ∧
    ((⟨str ("big.png"), 17000000, some ⟨8, 8⟩⟩ : UploadedFile).size > MAX_FILE_SIZE_DEFAULT ∧
      validate_file allowed_extensions_default MAX_FILE_SIZE_DEFAULT
        (some ⟨str ("big.png"), 17000000, some ⟨8, 8⟩⟩) ≠ none) ∧
    (20000 * 20000 > 100000000 ∧
      validate_file allowed_extensions_default MAX_FILE_SIZE_DEFAULT
        (some ⟨str ("wide.png"), 4, some ⟨20000, 20000⟩⟩) ≠ none) :=
  ⟨⟨by decide, validate_file_rejections.1 _ _ _ (Or.inr (by decide))⟩,
   ⟨by norm_num [MAX_FILE_SIZE_DEFAULT],
    validate_file_rejections.2.1 _ _ _ (by norm_num [MAX_FILE_SIZE_DEFAULT])⟩,
   ⟨by norm_num,
    validate_file_rejections.2.2 _ _ ⟨str ("wide.png"), 4, some ⟨20000, 20000⟩⟩ ⟨20000, 20000⟩
      rfl (by norm_num)⟩⟩

/-! ## security.py — RateLimiter -/

/-- `RateLimiter` state (security.py lines 29-35): configuration plus the
`defaultdict(deque)` of per-key timestamp sequences. Timestamps
(`time.time()` floats) are rationals. -/
structure RateLimiter where
  max_requests : Nat
  window_seconds : ℚ
  requests : PyStr → List ℚ

/-- `RateLimiter.__init__` (lines 32-35): `window_seconds = window_minutes * 60`,
empty deques for every key. -/
def RateLimiter.init (max_requests : Nat) (window_minutes : ℚ) : RateLimiter :=
  ⟨max_requests, window_minutes * 60, fun _ => []⟩

/-- `RateLimiter.is_allowed` (lines 37-51) with `now` passed explicitly:
drop the prefix of timestamps strictly older than `now - window_seconds`
(the `while ... popleft()` loop), then append `now` and return `True` if
fewer than `max_requests` remain, else return `False` with only the prune
persisted. -/
def is_allowed (rl : RateLimiter) (key : PyStr) (now : ℚ) : Bool × RateLimiter :=
  let window_start := now - rl.window_seconds
  let pruned := (rl.requests key).dropWhile fun t => decide (t < window_start)
  if pruned.length < rl.max_requests then
    (true, { rl with requests := fun k => if k = key then pruned ++ [now] else rl.requests k })
  else
    (false, { rl with requests := fun k => if k = key then pruned else rl.requests k })

/-- Run a sequence of `is_allowed` calls, collecting the results. -/
def runCalls : RateLimiter → List (PyStr × ℚ) → List Bool × RateLimiter
  | rl, [] => ([], rl)
  | rl, c :: rest =>
    ((is_allowed rl c.1 c.2).1 :: (runCalls (is_allowed rl c.1 c.2).2 rest).1,
     (runCalls (is_allowed rl c.1 c.2).2 rest).2)

theorem is_allowed_max_requests (rl : RateLimiter) (key : PyStr) (now : ℚ) :
    ((is_allowed rl key now).2).max_requests = rl.max_requests := by
  simp only [is_allowed]
  split_ifs <;> rfl

theorem is_allowed_window_seconds (rl : RateLimiter) (key : PyStr) (now : ℚ) :
    ((is_allowed rl key now).2).window_seconds = rl.window_seconds := by
  simp only [is_allowed]
  split_ifs <;> rfl

theorem is_allowed_true (rl : RateLimiter) (key : PyStr) (now : ℚ)
    (h : (((rl.requests key).dropWhile fun t =>
        decide (t < now - rl.window_seconds))).length < rl.max_requests) :
    (is_allowed rl key now).1 = true ∧
    ((is_allowed rl key now).2).requests key =
      ((rl.requests key).dropWhile fun t => decide (t < now - rl.window_seconds)) ++ [now] := by
  simp only [is_allowed]
  rw [if_pos h]
  simp

theorem is_allowed_false (rl : RateLimiter) (key : PyStr) (now : ℚ)
    (h : ¬(((rl.requests key).dropWhile fun t =>
        decide (t < now - rl.window_seconds))).length < rl.max_requests) :
    (is_allowed rl key now).1 = false ∧
    ((is_allowed rl key now).2).requests key =
      (rl.requests key).dropWhile fun t => decide (t < now - rl.window_seconds) := by
  simp only [is_allowed]
  rw [if_neg h]
  simp

theorem is_allowed_requests_other (rl : RateLimiter) (key k : PyStr) (now : ℚ)
    (h : k ≠ key) :
    ((is_allowed rl key now).2).requests k = rl.requests k := by
  simp only [is_allowed]
  split_ifs <;> simp [h]

theorem dropWhile_eq_self_of {α : Type} {p : α → Bool} {l : List α}
    (h : ∀ x ∈ l, p x = false) : l.dropWhile p = l := by
  cases l with
  | nil => rfl
  | cons a t => simp [List.dropWhile_cons, h a (List.mem_cons_self a t)]

theorem dropWhile_eq_nil_of {α : Type} {p : α → Bool} :
    ∀ l : List α, (∀ x ∈ l, p x = true) → l.dropWhile p = [] := by
  intro l h
  induction l with
  | nil => rfl
  | cons a t ih =>
    rw [List.dropWhile_cons, if_pos (h a (List.mem_cons_self a t))]
    exact ih fun x hx => h x (List.mem_cons_of_mem a hx)

theorem sorted_dropWhile_ge (ws : ℚ) :
    ∀ l : List ℚ, List.Sorted (· ≤ ·) l →
      ∀ t ∈ l.dropWhile (fun t => decide (t < ws)), ws ≤ t := by
  intro l
  induction l with
  | nil => simp
  | cons a tl ih =>
    intro hs t ht
    obtain ⟨hhead, htail⟩ := List.sorted_cons.mp hs
    rw [List.dropWhile_cons] at ht
    by_cases ha : a < ws
    · rw [if_pos (by simpa using ha)] at ht
      exact ih htail t ht
    · rw [if_neg (by simpa using ha)] at ht
      rcases List.mem_cons.mp ht with rfl | htl
      · exact le_of_not_lt ha
      · exact le_trans (le_of_not_lt ha) (hhead t htl)

/-- State invariant of the limiter after any valid history whose call times
are bounded by `ub`: every per-key deque is sorted, holds at most
`max_requests` timestamps, and only timestamps `≤ ub`. -/
def LimiterInv (rl : RateLimiter) (ub : ℚ) : Prop :=
  ∀ k, List.Sorted (· ≤ ·) (rl.requests k) ∧
    (rl.requests k).length ≤ rl.max_requests ∧
    ∀ t ∈ rl.requests k, t ≤ ub

theorem init_inv (max_requests : Nat) (window_minutes : ℚ) (ub : ℚ) :
    LimiterInv (RateLimiter.init max_requests window_minutes) ub := by
  intro k
  refine ⟨?_, ?_, ?_⟩ <;> simp [RateLimiter.init]

theorem is_allowed_preserves_inv (rl : RateLimiter) (key : PyStr) (now ub : ℚ)
    (hinv : LimiterInv rl ub) (hub : ub ≤ now) :
    LimiterInv ((is_allowed rl key now).2) now := by
  intro k
  obtain ⟨hs, hl, hb⟩ := hinv k
  by_cases hk : k = key
  · subst hk
    have hsub : ((rl.requests k).dropWhile fun t =>
        decide (t < now - rl.window_seconds)).Sublist (rl.requests k) :=
      List.dropWhile_sublist _
    have hps : List.Sorted (· ≤ ·) ((rl.requests k).dropWhile fun t =>
        decide (t < now - rl.window_seconds)) := List.Pairwise.sublist hsub hs
    have hpl : ((rl.requests k).dropWhile fun t =>
        decide (t < now - rl.window_seconds)).length ≤ (rl.requests k).length :=
      hsub.length_le
    have hpb : ∀ t ∈ (rl.requests k).dropWhile fun t =>
        decide (t < now - rl.window_seconds), t ≤ ub :=
      fun t ht => hb t (hsub.subset ht)
    rw [is_allowed_max_requests]
    by_cases hdec : ((rl.requests k).dropWhile fun t =>
        decide (t < now - rl.window_seconds)).length < rl.max_requests
    · rw [(is_allowed_true rl k now hdec).2]
      refine ⟨?_, ?_, ?_⟩
      · exact List.pairwise_append.mpr ⟨hps, List.sorted_singleton now,
          fun a ha b hbm => by
            rw [List.mem_singleton] at hbm
            subst hbm
            exact le_trans (hpb a ha) hub⟩
      · rw [List.length_append, List.length_singleton]
        omega
      · intro t ht
        rcases List.mem_append.mp ht with h | h
        · exact le_trans (hpb t h) hub
        · rw [List.mem_singleton] at h
          subst h
          exact le_refl _
    · rw [(is_allowed_false rl k now hdec).2]
      exact ⟨hps, le_trans hpl hl, fun t ht => le_trans (hpb t ht) hub⟩
  · rw [is_allowed_requests_other rl key k now hk, is_allowed_max_requests]
    exact ⟨hs, hl, fun t ht => le_trans (hb t ht) hub⟩

theorem is_allowed_post (rl : RateLimiter) (key : PyStr) (now ub : ℚ)
    (hw : 0 ≤ rl.window_seconds) (hinv : LimiterInv rl ub) (hub : ub ≤ now) :
    (((is_allowed rl key now).2).requests key).length ≤ rl.max_requests ∧
    ∀ t ∈ ((is_allowed rl key now).2).requests key,
      now - rl.window_seconds ≤ t ∧ t ≤ now := by
  obtain ⟨hs, hl, hb⟩ := hinv key
  have hlen : (((is_allowed rl key now).2).requests key).length ≤ rl.max_requests := by
    have h := is_allowed_preserves_inv rl key now ub hinv hub key
    rw [is_allowed_max_requests] at h
    exact h.2.1
  refine ⟨hlen, ?_⟩
  have hge := sorted_dropWhile_ge (now - rl.window_seconds) (rl.requests key) hs
  have hple : ∀ t ∈ (rl.requests key).dropWhile fun t =>
      decide (t < now - rl.window_seconds), t ≤ now :=
    fun t ht => le_trans (hb t ((List.dropWhile_sublist _).subset ht)) hub
  by_cases hdec : ((rl.requests key).dropWhile fun t =>
      decide (t < now - rl.window_seconds)).length < rl.max_requests
  · rw [(is_allowed_true rl key now hdec).2]
    intro t ht
    rcases List.mem_append.mp ht with h | h
    · exact ⟨hge t h, hple t h⟩
    · rw [List.mem_singleton] at h
      subst h
      exact ⟨by linarith, le_refl _⟩
  · rw [(is_allowed_false rl key now hdec).2]
    intro t ht
    exact ⟨hge t ht, hple t ht⟩

theorem sorted_cons_self {x : ℚ} {l : List ℚ} (h : List.Sorted (· ≤ ·) (x :: l)) :
    List.Sorted (· ≤ ·) (x :: x :: l) := by
  rw [List.sorted_cons]
  refine ⟨?_, h⟩
  intro b hb
  rcases List.mem_cons.mp hb with rfl | hb
  · exact le_refl b
  · exact List.rel_of_sorted_cons h b hb

theorem run_then_call_post :
    ∀ (calls : List (PyStr × ℚ)) (rl : RateLimiter) (ub : ℚ) (key : PyStr) (now : ℚ),
      0 ≤ rl.window_seconds → LimiterInv rl ub →
      List.Sorted (· ≤ ·) (ub :: (calls.map Prod.snd ++ [now])) →
      (((runCalls rl (calls ++ [(key, now)])).2).requests key).length ≤ rl.max_requests ∧
      ∀ t ∈ ((runCalls rl (calls ++ [(key, now)])).2).requests key,
        now - rl.window_seconds ≤ t ∧ t ≤ now := by
  intro calls
  induction calls with
  | nil =>
    intro rl ub key now hw hinv hsort
    have hub : ub ≤ now := by
      obtain ⟨hhead, _⟩ := List.sorted_cons.mp hsort
      exact hhead now (by simp)
    simpa [runCalls] using is_allowed_post rl key now ub hw hinv hub
  | cons c rest ih =>
    intro rl ub key now hw hinv hsort
    obtain ⟨hhead, htail⟩ := List.sorted_cons.mp hsort
    have hub : ub ≤ c.2 := hhead c.2 (by simp)
    have hinv1 : LimiterInv ((is_allowed rl c.1 c.2).2) c.2 :=
      is_allowed_preserves_inv rl c.1 c.2 ub hinv hub
    have hw1 : 0 ≤ ((is_allowed rl c.1 c.2).2).window_seconds := by
      rw [is_allowed_window_seconds]
      exact hw
    have hsort1 : List.Sorted (· ≤ ·) (c.2 :: (rest.map Prod.snd ++ [now])) := by
      simpa using htail
    have hres := ih ((is_allowed rl c.1 c.2).2) c.2 key now hw1 hinv1 hsort1
    rw [is_allowed_max_requests, is_allowed_window_seconds] at hres
    have hrw : (runCalls rl ((c :: rest) ++ [(key, now)])).2 =
        (runCalls ((is_allowed rl c.1 c.2).2) (rest ++ [(key, now)])).2 := by
      simp [runCalls]
    rw [hrw]
    exact hres

/-- C2: for every key and every sequence of `is_allowed` calls with
non-decreasing call times starting from a fresh limiter, immediately after
each call (here: the last call of an arbitrary sequence, for its key `key`
at its time `now`) the stored timestamp sequence for that key has length at
most `max_requests`, and every stored timestamp `t` satisfies
`now - window_seconds ≤ t ≤ now` — older timestamps having been pruned as a
prefix trim before the decision. -/
theorem rate_limiter_window_invariant (max_requests : Nat) (window_minutes : ℚ)
    (calls : List (PyStr × ℚ)) (key : PyStr) (now : ℚ)
    (hw : 0 ≤ window_minutes)
    (hsort : List.Sorted (· ≤ ·) ((calls ++ [(key, now)]).map Prod.snd)) :
    (((runCalls (RateLimiter.init max_requests window_minutes)
        (calls ++ [(key, now)])).2).requests key).length ≤ max_requests ∧
    ∀ t ∈ ((runCalls (RateLimiter.init max_requests window_minutes)
        (calls ++ [(key, now)])).2).requests key,
      now - window_minutes * 60 ≤ t ∧ t ≤ now := by
  have hw60 : 0 ≤ (RateLimiter.init max_requests window_minutes).window_seconds := by
    simp only [RateLimiter.init]
    positivity
  cases calls with
  | nil =>
    have hsort' : List.Sorted (· ≤ ·)
        (now :: (([] : List (PyStr × ℚ)).map Prod.snd ++ [now])) := by
      simp
    exact run_then_call_post [] (RateLimiter.init max_requests window_minutes) now key now
      hw60 (init_inv _ _ _) hsort'
  | cons c rest =>
    have hsort2 : List.Sorted (· ≤ ·)
        (c.2 :: ((c :: rest).map Prod.snd ++ [now])) := by
      apply sorted_cons_self
      simpa using hsort
    exact run_then_call_post (c :: rest) (RateLimiter.init max_requests window_minutes)
      c.2 key now hw60 (init_inv _ _ _) hsort2

theorem runCalls_all_allowed :
    ∀ (rest done : List ℚ) (rl : RateLimiter) (key : PyStr) (now : ℚ),
      rl.requests key = done →
      List.Sorted (· ≤ ·) (done ++ rest) →
      (∀ t ∈ done ++ rest, now - rl.window_seconds < t ∧ t ≤ now) →
      done.length + rest.length ≤ rl.max_requests →
      (runCalls rl (rest.map fun t => (key, t))).1 = List.replicate rest.length true ∧
      ((runCalls rl (rest.map fun t => (key, t))).2).requests key = done ++ rest ∧
      ((runCalls rl (rest.map fun t => (key, t))).2).max_requests = rl.max_requests ∧
      ((runCalls rl (rest.map fun t => (key, t))).2).window_seconds = rl.window_seconds := by
  intro rest
  induction rest with
  | nil =>
    intro done rl key now hreq hsort hwin hlen
    refine ⟨rfl, ?_, rfl, rfl⟩
    simpa [runCalls] using hreq
  | cons t0 rest ih =>
    intro done rl key now hreq hsort hwin hlen
    have ht0 := hwin t0 (by simp)
    have hprune : ((rl.requests key).dropWhile fun t =>
        decide (t < t0 - rl.window_seconds)) = done := by
      rw [hreq]
      apply dropWhile_eq_self_of
      intro x hx
      have hxw := hwin x (List.mem_append_left _ hx)
      have hnot : ¬(x < t0 - rl.window_seconds) := by
        have h1 : t0 ≤ now := ht0.2
        have h2 : now - rl.window_seconds < x := hxw.1
        linarith
      simpa using hnot
    have hlt : done.length < rl.max_requests := by
      simp only [List.length_cons] at hlen
      omega
    have hstep := is_allowed_true rl key t0 (by rw [hprune]; exact hlt)
    have hreq1 : ((is_allowed rl key t0).2).requests key = done ++ [t0] := by
      rw [hstep.2, hprune]
    have hmax1 := is_allowed_max_requests rl key t0
    have hws1 := is_allowed_window_seconds rl key t0
    have hsort1 : List.Sorted (· ≤ ·) ((done ++ [t0]) ++ rest) := by
      rw [List.append_assoc]
      simpa using hsort
    have hwin1 : ∀ t ∈ (done ++ [t0]) ++ rest,
        now - ((is_allowed rl key t0).2).window_seconds < t ∧ t ≤ now := by
      rw [hws1, List.append_assoc]
      simpa using hwin
    have hlen1 : (done ++ [t0]).length + rest.length ≤
        ((is_allowed rl key t0).2).max_requests := by
      rw [hmax1]
      simp only [List.length_append, List.length_singleton]
      simp only [List.length_cons] at hlen
      omega
    have hres := ih (done ++ [t0]) ((is_allowed rl key t0).2) key now
      hreq1 hsort1 hwin1 hlen1
    have hfst : (runCalls rl ((t0 :: rest).map fun t => (key, t))).1 =
        (is_allowed rl key t0).1 ::
          (runCalls ((is_allowed rl key t0).2) (rest.map fun t => (key, t))).1 := by
      simp [runCalls]
    have hsnd : (runCalls rl ((t0 :: rest).map fun t => (key, t))).2 =
        (runCalls ((is_allowed rl key t0).2) (rest.map fun t => (key, t))).2 := by
      simp [runCalls]
    refine ⟨?_, ?_, ?_, ?_⟩
    · rw [hfst, hstep.1, hres.1]
      simp [List.replicate]
    · rw [hsnd, hres.2.1, List.append_assoc]
      simp
    · rw [hsnd, hres.2.2.1, hmax1]
    · rw [hsnd, hres.2.2.2, hws1]

theorem is_allowed_denied_full (rl : RateLimiter) (key : PyStr) (now : ℚ)
    (hfull : (rl.requests key).length = rl.max_requests)
    (hfresh : ∀ t ∈ rl.requests key, ¬(t < now - rl.window_seconds)) :
    (is_allowed rl key now).1 = false ∧
    ((is_allowed rl key now).2).requests key = rl.requests key := by
  have hprune : ((rl.requests key).dropWhile fun t =>
      decide (t < now - rl.window_seconds)) = rl.requests key :=
    dropWhile_eq_self_of fun x hx => by simpa using hfresh x hx
  have hnd : ¬(((rl.requests key).dropWhile fun t =>
      decide (t < now - rl.window_seconds)).length < rl.max_requests) := by
    rw [hprune, hfull]
    exact lt_irrefl _
  exact ⟨(is_allowed_false rl key now hnd).1,
    by rw [(is_allowed_false rl key now hnd).2, hprune]⟩

/-- C1: starting from a fresh limiter, `max_requests` calls for a key at
non-decreasing times, all within the window of a later instant `now`, are
all allowed; the next call for that key at `now` (still within the window)
is denied and appends nothing; and from any state in which every stored
timestamp of the key is strictly older than `now - window_seconds` (the
full window has elapsed with no further calls for the key), the next call
is allowed again. -/
theorem rate_limiter_deny_at_cap_allow_after_window :
    (∀ (max_requests : Nat) (window_minutes : ℚ) (key : PyStr) (ts : List ℚ) (now : ℚ),
      ts.length = max_requests →
      List.Sorted (· ≤ ·) ts →
      (∀ t ∈ ts, now - window_minutes * 60 < t ∧ t ≤ now) →
      (runCalls (RateLimiter.init max_requests window_minutes)
          (ts.map fun t => (key, t))).1 = List.replicate max_requests true ∧
      (is_allowed (runCalls (RateLimiter.init max_requests window_minutes)
          (ts.map fun t => (key, t))).2 key now).1 = false ∧
      ((is_allowed (runCalls (RateLimiter.init max_requests window_minutes)
          (ts.map fun t => (key, t))).2 key now).2).requests key = ts) ∧
    (∀ (rl : RateLimiter) (key : PyStr) (now : ℚ),
      0 < rl.max_requests →
      (∀ t ∈ rl.requests key, t < now - rl.window_seconds) →
      (is_allowed rl key now).1 = true ∧
      ((is_allowed rl key now).2).requests key = [now]) := by
  constructor
  · intro max_requests window_minutes key ts now hts hsort hwin
    have hrun := runCalls_all_allowed ts []
      (RateLimiter.init max_requests window_minutes) key now rfl (by simpa using hsort)
      (by simpa [RateLimiter.init] using hwin) (by simp [RateLimiter.init, hts])
    simp only [List.nil_append] at hrun
    obtain ⟨hfst, hkey, hmax, hws⟩ := hrun
    have hfull : (((runCalls (RateLimiter.init max_requests window_minutes)
        (ts.map fun t => (key, t))).2).requests key).length =
        ((runCalls (RateLimiter.init max_requests window_minutes)
          (ts.map fun t => (key, t))).2).max_requests := by
      rw [hkey, hmax, hts]
      rfl
    have hfresh : ∀ t ∈ ((runCalls (RateLimiter.init max_requests window_minutes)
        (ts.map fun t => (key, t))).2).requests key,
        ¬(t < now - ((runCalls (RateLimiter.init max_requests window_minutes)
          (ts.map fun t => (key, t))).2).window_seconds) := by
      rw [hkey, hws]
      intro t ht
      have h1 := (hwin t ht).1
      simp only [RateLimiter.init]
      linarith
    have hden := is_allowed_denied_full _ key now hfull hfresh
    exact ⟨by rw [hfst, hts], hden.1, by rw [hden.2, hkey]⟩
  · intro rl key now hpos hstale
    have hprune : ((rl.requests key).dropWhile fun t =>
        decide (t < now - rl.window_seconds)) = [] := by
      apply dropWhile_eq_nil_of
      intro x hx
      simpa using hstale x hx
    have hstep := is_allowed_true rl key now (by rw [hprune]; simpa using hpos)
    exact ⟨hstep.1, by rw [hstep.2, hprune]; simp⟩

/-- Witness for C1: with `max_requests = 2` and a one-minute window, calls
at times 10 and 20 are both allowed, a third call at time 60 (within the
window of both) is denied without appending, and a fresh key state whose
only timestamp is stale (-100) is allowed again at time 60. -/
theorem rate_limiter_deny_at_cap_allow_after_window_witness :
    (([10, 20] : List ℚ).length = 2 ∧
      List.Sorted (· ≤ ·) ([10, 20] : List ℚ) ∧
      (∀ t ∈ ([10, 20] : List ℚ), (60 : ℚ) - 1 * 60 < t ∧ t ≤ 60)) ∧
    ((runCalls (RateLimiter.init 2 1)
        (([10, 20] : List ℚ).map fun t => (str ("ip"), t))).1 = List.replicate 2 true ∧
      (is_allowed (runCalls (RateLimiter.init 2 1)
        (([10, 20] : List ℚ).map fun t => (str ("ip"), t))).2 (str ("ip")) 60).1 = false ∧
      ((is_allowed (runCalls (RateLimiter.init 2 1)
        (([10, 20] : List ℚ).map fun t => (str ("ip"), t))).2 (str ("ip")) 60).2).requests
          (str ("ip")) = [10, 20]) ∧
    (0 < (RateLimiter.mk 1 60 (fun _ => [-100]) : RateLimiter).max_requests ∧
      (∀ t ∈ (RateLimiter.mk 1 60 (fun _ => [-100]) : RateLimiter).requests (str ("ip")),
        t < (60 : ℚ) - (RateLimiter.mk 1 60 (fun _ => [-100]) : RateLimiter).window_seconds) ∧
      (is_allowed (RateLimiter.mk 1 60 (fun _ => [-100])) (str ("ip")) 60).1 = true ∧
      ((is_allowed (RateLimiter.mk 1 60 (fun _ => [-100])) (str ("ip")) 60).2).requests
        (str ("ip")) = [60]) := by
  have h1 : (([10, 20] : List ℚ)).length = 2 := rfl
  have h2 : List.Sorted (· ≤ ·) ([10, 20] : List ℚ) := by
    norm_num [List.sorted_cons]
  have h3 : ∀ t ∈ ([10, 20] : List ℚ), (60 : ℚ) - 1 * 60 < t ∧ t ≤ 60 := by
    intro t ht
    fin_cases ht <;> norm_num
  have h4 : 0 < (RateLimiter.mk 1 60 (fun _ => [-100]) : RateLimiter).max_requests := by
    norm_num
  have h5 : ∀ t ∈ (RateLimiter.mk 1 60 (fun _ => [-100]) : RateLimiter).requests (str ("ip")),
      t < (60 : ℚ) - (RateLimiter.mk 1 60 (fun _ => [-100]) : RateLimiter).window_seconds := by
    intro t ht
    rcases List.mem_singleton.mp ht with rfl
    norm_num
  exact ⟨⟨h1, h2, h3⟩,
    rate_limiter_deny_at_cap_allow_after_window.1 2 1 (str ("ip")) [10, 20] 60 h1 h2 h3,
    h4, h5,
    rate_limiter_deny_at_cap_allow_after_window.2 (RateLimiter.mk 1 60 (fun _ => [-100]))
      (str ("ip")) 60 h4 h5⟩

/-- Witness for C2: one call for key `"a"` at time 5 followed by one at
time 30, with `max_requests = 1`: after the last call the key holds at most
one timestamp and every stored timestamp is within `[30 - 60, 30]`. -/
theorem rate_limiter_window_invariant_witness :
    (0 ≤ (1 : ℚ) ∧
      List.Sorted (· ≤ ·) ((([(str ("a"), (5 : ℚ))] ++ [(str ("a"), (30 : ℚ))])).map Prod.snd)) ∧
    ((((runCalls (RateLimiter.init 1 1)
        ([(str ("a"), (5 : ℚ))] ++ [(str ("a"), (30 : ℚ))])).2).requests (str ("a"))).length ≤ 1 ∧
      ∀ t ∈ ((runCalls (RateLimiter.init 1 1)
        ([(str ("a"), (5 : ℚ))] ++ [(str ("a"), (30 : ℚ))])).2).requests (str ("a")),
        (30 : ℚ) - 1 * 60 ≤ t ∧ t ≤ 30) := by
  have h1 : (0 : ℚ) ≤ 1 := by norm_num
  have h2 : List.Sorted (· ≤ ·)
      ((([(str ("a"), (5 : ℚ))] ++ [(str ("a"), (30 : ℚ))])).map Prod.snd) := by
    norm_num [List.sorted_cons]
  exact ⟨⟨h1, h2⟩,
    rate_limiter_window_invariant 1 1 [(str ("a"), 5)] (str ("a")) 30 h1 h2⟩

/-! ## Concurrency model for `RateLimiter.is_allowed`

`is_allowed` (security.py lines 37-51) takes no lock, and under CPython
threading the interpreter may switch threads between the
`len(self.requests[key]) < self.max_requests` check (line 47) and
`self.requests[key].append(now)` (line 48). Two threads running
`is_allowed` for the same key are modelled as interleaved atomic phases on
the shared deque of that key: the prune loop (lines 43-44), the
length check (line 47), and the conditional append (line 48). -/

/-- Program counter of one thread inside `is_allowed`. -/
inductive RacePC
  | pruneStep
  | decideStep
  | commitStep (allowed : Bool)
  | doneStep (allowed : Bool)
deriving DecidableEq, Repr

/-- Shared deque `self.requests[key]` plus both threads' positions. -/
structure RaceState where
  times : List ℚ
  pcA : RacePC
  pcB : RacePC
deriving Repr

/-- One atomic phase of `is_allowed` executed by one thread. -/
def threadStep (maxR : Nat) (ws now : ℚ) (times : List ℚ) : RacePC → List ℚ × RacePC
  | RacePC.pruneStep => (times.dropWhile fun t => decide (t < now - ws), RacePC.decideStep)
  | RacePC.decideStep => (times, RacePC.commitStep (decide (times.length < maxR)))
  | RacePC.commitStep true => (times ++ [now], RacePC.doneStep true)
  | RacePC.commitStep false => (times, RacePC.doneStep false)
  | RacePC.doneStep b => (times, RacePC.doneStep b)

/-- Scheduler step: `true` runs thread A, `false` runs thread B. -/
def raceStep (maxR : Nat) (ws now : ℚ) (s : RaceState) (choiceA : Bool) : RaceState :=
  if choiceA then
    { times := (threadStep maxR ws now s.times s.pcA).1,
      pcA := (threadStep maxR ws now s.times s.pcA).2,
      pcB := s.pcB }
  else
    { times := (threadStep maxR ws now s.times s.pcB).1,
      pcA := s.pcA,
      pcB := (threadStep maxR ws now s.times s.pcB).2 }

/-- Run a schedule of interleaved thread steps. -/
def runRace (maxR : Nat) (ws now : ℚ) (sched : List Bool) (s : RaceState) : RaceState :=
  sched.foldl (raceStep maxR ws now) s

/-- C9 fails on the code: with `max_requests = 2`, a key holding one
in-window timestamp, and two concurrent `is_allowed` calls at the same
instant, the schedule prune-A, prune-B, check-A, check-B, append-A,
append-B lets both calls return `True`, leaving three in-window timestamps
— the number of allowed requests within the trailing window exceeds
`max_requests`. Sequential execution of the same two calls (the lock-free
code's only safe schedule) yields `[True, False]` instead. -/
theorem rate_limiter_race_exceeds_cap :
    (runRace 2 60 0 [true, false, true, false, true, false]
        ⟨[0], RacePC.pruneStep, RacePC.pruneStep⟩).pcA = RacePC.doneStep true ∧
    (runRace 2 60 0 [true, false, true, false, true, false]
        ⟨[0], RacePC.pruneStep, RacePC.pruneStep⟩).pcB = RacePC.doneStep true ∧
    (runRace 2 60 0 [true, false, true, false, true, false]
        ⟨[0], RacePC.pruneStep, RacePC.pruneStep⟩).times = [0, 0, 0] ∧
    2 < (runRace 2 60 0 [true, false, true, false, true, false]
        ⟨[0], RacePC.pruneStep, RacePC.pruneStep⟩).times.length ∧
    (∀ t ∈ (runRace 2 60 0 [true, false, true, false, true, false]
        ⟨[0], RacePC.pruneStep, RacePC.pruneStep⟩).times, (0 : ℚ) - 60 ≤ t ∧ t ≤ 0) ∧
    (runCalls (RateLimiter.mk 2 60 (fun _ => [0])) [(str ("ip"), 0), (str ("ip"), 0)]).1 =
      [true, false] := by
  norm_num [runRace, raceStep, threadStep, runCalls, is_allowed]
